import Mathlib

/-!
Verification of the pybit WebSocket topic-state reducers, subscription
registry and connection lifecycle, shallowly embedded from the source
(`pybit/__init__.py` and `pybit/websocket_stream.py`).
-/

namespace Pybit

/-- `next(i for i, j in enumerate(source) if p j)`: index of the first
element satisfying `p`; `none` models the `StopIteration` raised when no
element matches.  This is the body of `WebSocket._find_index`. -/
def pyNext {α : Type} (p : α → Bool) : List α → Option Nat
  | [] => none
  | x :: xs => if p x then some 0 else (pyNext p xs).map (fun i => i + 1)

/-! ## Orderbook L2 keyed list (`WebSocket._on_message`, 'orderBook' branch) -/

/-- A cached orderbook price-level record.  In the source each entry is a
dict carrying a stable `id` field used for lookups plus payload fields;
the payload is represented here by `price` and `size`. -/
structure OBEntry where
  id : Nat
  price : Nat
  size : Nat
deriving DecidableEq, Repr

/-- `WebSocket._find_index(source, target, 'id')`:
`next(i for i, j in enumerate(source) if j['id'] == target['id'])`. -/
def findIndexOB (source : List OBEntry) (target : OBEntry) : Option Nat :=
  pyNext (fun j => j.id == target.id) source

/-- One step of the delete loop:
`index = self._find_index(self.data[topic], entry, 'id'); self.data[topic].pop(index)`.
`none` models the uncaught `StopIteration`. -/
def obDeleteStep (book : List OBEntry) (entry : OBEntry) : Option (List OBEntry) :=
  (findIndexOB book entry).map (fun i => book.eraseIdx i)

/-- One step of the update loop:
`index = self._find_index(...); self.data[topic][index] = entry`. -/
def obUpdateStep (book : List OBEntry) (entry : OBEntry) : Option (List OBEntry) :=
  (findIndexOB book entry).map (fun i => book.set i entry)

/-- The delete loop: `for entry in msg_json['data']['delete']`. -/
def obApplyDeletes : List OBEntry → List OBEntry → Option (List OBEntry)
  | book, [] => some book
  | book, e :: es => (obDeleteStep book e).bind (fun b => obApplyDeletes b es)

/-- The update loop: `for entry in msg_json['data']['update']`. -/
def obApplyUpdates : List OBEntry → List OBEntry → Option (List OBEntry)
  | book, [] => some book
  | book, e :: es => (obUpdateStep book e).bind (fun b => obApplyUpdates b es)

/-- A delta push payload: `msg_json['data']` with its `delete`, `update`
and `insert` lists. -/
structure OBDelta where
  delete : List OBEntry
  update : List OBEntry
  insert : List OBEntry
deriving DecidableEq, Repr

/-- The whole `'delta' in msg_json['type']` branch of the orderbook
reducer: the delete loop, then the update loop, then the insert loop
(each insert is `self.data[topic].append(entry)`). -/
def obApplyDelta (book : List OBEntry) (d : OBDelta) : Option (List OBEntry) :=
  (obApplyDeletes book d.delete).bind (fun b1 =>
    (obApplyUpdates b1 d.update).map (fun b2 => b2 ++ d.insert))

/-- Modelled from the spec's words, for comparison with the code: "remove
entries whose identifier appears in the delete set". -/
def specDeletePhase (delIds : List Nat) (book : List OBEntry) : List OBEntry :=
  book.filter (fun e => !(delIds.contains e.id))

/-- Modelled from the spec's words, for comparison with the code:
"overwrite entries whose identifier appears in the update set". -/
def specUpdatePhase (upds : List OBEntry) (book : List OBEntry) : List OBEntry :=
  book.map (fun e => (upds.find? (fun u => u.id == e.id)).getD e)

/-! ## Diff-depth side-keyed book (`WebSocket._on_message`, 'diffDepth' branch) -/

/-- A diff-depth price level `[price, qty]` (`entry[0]`, `entry[1]`). -/
abbrev DDLevel := Nat × Nat

/-- `WebSocket._find_index(side, entry, 0)`: first index whose price
(`level[0]`) equals the pushed entry's price. -/
def findIndexDD (side : List DDLevel) (entry : DDLevel) : Option Nat :=
  pyNext (fun l => l.1 == entry.1) side

/-- The body of the per-entry loop of the diffDepth reducer for one
pushed `[price, qty]` pair:
if `float(entry[1]) == 0` delete (uncaught `StopIteration` if the price
is absent); else if the price level does not exist, append; else if the
quantity changed, overwrite in place; else leave the side unchanged. -/
def ddApplyEntry (side : List DDLevel) (entry : DDLevel) : Option (List DDLevel) :=
  if entry.2 = 0 then
    (findIndexDD side entry).map (fun i => side.eraseIdx i)
  else
    match side.find? (fun l => l.1 == entry.1) with
    | none => some (side ++ [entry])
    | some l =>
      if entry.2 ≠ l.2 then
        (findIndexDD side entry).map (fun i => side.set i entry)
      else
        some side

/-- The `for entry in entries` loop over one side's pushed pairs. -/
def ddApplySide : List DDLevel → List DDLevel → Option (List DDLevel)
  | side, [] => some side
  | side, e :: es => (ddApplyEntry side e).bind (fun s => ddApplySide s es)

/-- Both sides of the cached diff-depth book
(`self.data[topic] = book_sides` with keys 'b' and 'a'). -/
structure DDBook where
  b : List DDLevel
  a : List DDLevel
deriving DecidableEq, Repr

/-- The whole diffDepth branch: `none` state models the initial falsy
`self.data[topic]` (seeded directly by the first push); afterwards each
push folds its pairs over the bid side then the ask side. -/
def ddApplyPush (cache : Option DDBook) (pushB pushA : List DDLevel) :
    Option (Option DDBook) :=
  match cache with
  | none => some (some ⟨pushB, pushA⟩)
  | some book =>
    (ddApplySide book.b pushB).bind (fun b1 =>
      (ddApplySide book.a pushA).map (fun a1 => some ⟨b1, a1⟩))

/-! ## Trade/execution bounded buffer (`WebSocket._on_message`, 'trade'/'execution' branch) -/

/-- The trade/execution branch for one push.  `cache = none` models the
initial `{}` placeholder whose `.append` raises `AttributeError`, upon
which the raw pushed list replaces it; otherwise each pushed entry is
appended.  Then: `if len(self.data[topic]) > self.max_length:
self.data[topic].pop(0)` — a single front eviction. -/
def pushTrades (maxLength : Nat) (cache : Option (List Nat)) (data : List Nat) :
    List Nat :=
  let l := match cache with
    | none => data
    | some l0 => l0 ++ data
  if maxLength < l.length then l.drop 1 else l

/-! ## Fetch/purge interface (`WebSocket.fetch`) -/

/-- `needle in hay` on Python strings (substring test). -/
def strContains (hay needle : String) : Bool :=
  hay.toList.tails.any (fun t => needle.toList.isPrefixOf t)

/-- The dispatch test of `WebSocket.fetch` selecting the drain-on-read
families: `any(i in topic for i in ['trade', 'execution']) and not
topic.startswith('orderBook') and "executionReport" not in topic`. -/
def isTradeLike (topic : String) : Bool :=
  (strContains topic "trade" || strContains topic "execution")
    && !("orderBook".toList.isPrefixOf topic.toList)
    && !(strContains topic "executionReport")

/-- Association-list lookup standing in for `self.data[topic]` where the
connect loop has pre-initialised every subscribed topic. -/
def lookupData (data : List (String × List Nat)) (topic : String) : List Nat :=
  match data.find? (fun kv => kv.1 == topic) with
  | some kv => kv.2
  | none => []

/-- `self.data[topic] = v` (dict assignment: replace if present, else add). -/
def setData (data : List (String × List Nat)) (topic : String) (v : List Nat) :
    List (String × List Nat) :=
  if data.any (fun kv => kv.1 == topic) then
    data.map (fun kv => if kv.1 == topic then (kv.1, v) else kv)
  else
    data ++ [(topic, v)]

/-- State of a legacy `WebSocket` connection as far as `fetch` is
concerned: the initial subscription list, the per-topic cache and the
`purge_on_fetch` flag. -/
structure WSFetchState where
  subscriptions : List String
  data : List (String × List Nat)
  purge : Bool
deriving DecidableEq, Repr

/-- `WebSocket.fetch(topic)` for futures (non-spot) connections, where
the spot-only `conform_topic` line is skipped.  Returns `none` for the
Python `return None` of the "not subscribed" branch; for trade-like
topics a copy of the buffer is returned and, when `purge_on_fetch` is
set, the live buffer is replaced by `[]`. -/
def wsFetch (s : WSFetchState) (topic : String) :
    Option (List Nat) × WSFetchState :=
  if topic ∈ s.subscriptions then
    if isTradeLike topic then
      let buf := lookupData s.data topic
      (some buf,
        if s.purge then { s with data := setData s.data topic [] } else s)
    else
      (some (lookupData s.data topic), s)
  else
    (none, s)

/-! ## Futures subscription registry (`websocket_stream.FuturesWebSocketManager`) -/

/-- Python `topic.format(symbol)`: each `\x7b\x7d` placeholder in the
template is replaced by the symbol. -/
def pyFormat (sym : List Char) : List Char → List Char
  | [] => []
  | [c] => [c]
  | c1 :: c2 :: rest =>
    if c1 = '\x7b' ∧ c2 = '\x7d' then sym ++ pyFormat sym rest
    else c1 :: pyFormat sym (c2 :: rest)

/-- The prefix of a string strictly before its last `'.'`, or `none` when
it has no dot.  This is the value of
`re.match(r".*(\..*|)(?=\.)", topic_string)`: the greedy `.*` backtracks
until the lookahead sees a dot, so the match is everything before the
last dot; `none` models the regex returning `None`. -/
def beforeLastDot : List Char → Option (List Char)
  | [] => none
  | c :: rest =>
    match beforeLastDot rest with
    | some p => some (c :: p)
    | none => if c = '.' then some [] else none

/-- `self.private_topics` of `FuturesWebSocketManager`. -/
def privateTopics : List (List Char) :=
  ["position", "execution", "order", "stop_order", "wallet"].map String.toList

/-- `FuturesWebSocketManager._extract_topic`: private topics are returned
unchanged, otherwise the symbol suffix after the last dot is stripped. -/
def extractTopic (t : List Char) : Option (List Char) :=
  if t ∈ privateTopics then some t else beforeLastDot t

/-- `topic in self.callback_directory` (dict key membership). -/
def containsKey (d : List (List Char × Nat)) (k : List Char) : Bool :=
  d.any (fun kv => kv.1 == k)

/-- `self.callback_directory[topic]` read; `none` models `KeyError`. -/
def lookupKey (d : List (List Char × Nat)) (k : List Char) : Option Nat :=
  (d.find? (fun kv => kv.1 == k)).map (fun kv => kv.2)

/-- `self.callback_directory[topic] = f` (dict assignment). -/
def setKey (d : List (List Char × Nat)) (k : List Char) (v : Nat) :
    List (List Char × Nat) :=
  if containsKey d k then
    d.map (fun kv => if kv.1 == k then (k, v) else kv)
  else
    d ++ [(k, v)]

/-- `self.callback_directory.pop(topic)`; `none` models the `KeyError`
raised when the key is absent. -/
def popKey (d : List (List Char × Nat)) (k : List Char) :
    Option (List (List Char × Nat)) :=
  if containsKey d k then some (d.filter (fun kv => !(kv.1 == k))) else none

/-- State of a `FuturesWebSocketManager`: the (unused by `subscribe`)
credentials, the callback registry keyed by `_extract_topic` output, the
subscribe frames sent so far (their `args` lists) and the auth flag. -/
structure FWSState where
  apiKey : Option String
  callback_directory : List (List Char × Nat)
  frames : List (List (List Char))
  auth : Bool
deriving DecidableEq, Repr

/-- `prepare_subscription_args` of `FuturesWebSocketManager.subscribe`:
private topics are passed through unformatted; with no symbols the
non-USDT wildcard branch formats with `*` (the USDT branch, which
enumerates symbols over HTTP, is outside this model); otherwise the
template is formatted once per symbol. -/
def prepareArgs (topic : List Char) (symbols : List (List Char)) :
    List (List Char) :=
  if topic ∈ privateTopics then [topic]
  else if symbols.isEmpty then [pyFormat ['*'] topic]
  else symbols.map (fun s => pyFormat s topic)

/-- `FuturesWebSocketManager.subscribe(topic, callback, symbol)`:
prepare the formatted args, run `_check_callback_directory` on them
(`none` models its raised duplicate-subscription `Exception`, which
leaves the sent frames unchanged), send the subscribe frame, then
`_set_callback(topic, callback)` keyed by `_extract_topic(topic)`.
Callbacks are represented by numeric identifiers. -/
def fSubscribe (s : FWSState) (topic : List Char) (cb : Nat)
    (symbols : List (List Char)) : Option FWSState :=
  let args := prepareArgs topic symbols
  if args.any (fun t => containsKey s.callback_directory t) then none
  else
    let s1 := { s with frames := s.frames ++ [args] }
    match extractTopic topic with
    | some key => some { s1 with callback_directory := setKey s1.callback_directory key cb }
    | none => none

/-- `FuturesWebSocketManager._get_callback(topic)`; `none` models the
`KeyError` on an unknown key (or the regex returning `None`). -/
def fGetCallback (s : FWSState) (topic : List Char) : Option Nat :=
  (extractTopic topic).bind (fun key => lookupKey s.callback_directory key)

/-- An inbound futures frame, with the fields
`_handle_incoming_message` reads: the echoed `request.op`, the
`success` flag, `ret_msg`, the echoed `request.args`, and the data-push
`topic`. -/
structure FMsg where
  reqOp : Option String
  success : Option Bool
  ret_msg : String
  reqArgs : List (List Char)
  topic : Option (List Char)
deriving DecidableEq, Repr

/-- `FuturesWebSocketManager._handle_incoming_message`.  The result is
`none` when an exception escapes the handler (missing `topic` key,
`IndexError` on `args`, `KeyError` in `_pop_callback`/`_get_callback`);
otherwise the new state is paired with the error-log entry, which on a
failed subscription ack surfaces `ret_msg`. -/
def fHandleIncoming (s : FWSState) (m : FMsg) : Option (FWSState × Option String) :=
  if m.reqOp = some "auth" then
    if m.success = some true then some ({ s with auth := true }, none)
    else some (s, none)
  else if m.reqOp = some "subscribe" then
    if m.success = some true then some (s, none)
    else if m.success = some false then
      match m.reqArgs.head? with
      | none => none
      | some a =>
        match extractTopic a with
        | none => none
        | some key =>
          (popKey s.callback_directory key).map
            (fun d => ({ s with callback_directory := d }, some m.ret_msg))
    else some (s, none)
  else
    match m.topic with
    | none => none
    | some t => (fGetCallback s t).map (fun _ => (s, none))

/-! ## Spot incoming-message handling (`websocket_stream.SpotWebSocketManager`) -/

/-- State of a `SpotWebSocketManager`: registry plus auth flag. -/
structure SpotState where
  callback_directory : List (List Char × Nat)
  auth : Bool
deriving DecidableEq, Repr

/-- An inbound spot frame, with the fields
`SpotWebSocketManager._handle_incoming_message` reads.  `conformedKey`
stands for `self._conform_topic(message)` applied to the data-push body
(the key-stripping serialisation itself is not needed by the claims). -/
structure SpotMsg where
  ping : Option Nat
  auth : Option String
  event : Option String
  code : Option String
  success : Option Bool
  conformedKey : List Char
deriving DecidableEq, Repr

/-- `is_ping_message()`: `message.get("ping")` is truthy. -/
def spotIsPing (m : SpotMsg) : Bool :=
  match m.ping with
  | some n => n != 0
  | none => false

/-- `is_auth_message()`: `message.get("auth")` is truthy. -/
def spotIsAuth (m : SpotMsg) : Bool :=
  match m.auth with
  | some a => a ≠ ""
  | none => false

/-- `is_subscription_message()`:
`message.get("event") == "sub" or message.get("code")`. -/
def spotIsSub (m : SpotMsg) : Bool :=
  (m.event = some "sub") ||
    (match m.code with
     | some c => c ≠ ""
     | none => false)

/-- `SpotWebSocketManager._handle_incoming_message` on a public
connection.  `none` models an exception escaping the handler; in
particular a subscription ack that is not a success and whose `code`
differs from `"0"` runs `raise Exception('Spot subscription failed.')`
without touching the callback registry. -/
def sHandleIncoming (s : SpotState) (m : SpotMsg) : Option (SpotState × Option String) :=
  if spotIsPing m then some (s, none)
  else if spotIsAuth m then
    if m.auth = some "success" then some ({ s with auth := true }, none)
    else some (s, none)
  else if spotIsSub m then
    if m.success = some true then some (s, none)
    else if m.code ≠ some "0" then none
    else some (s, none)
  else
    (lookupKey s.callback_directory m.conformedKey).map (fun _ => (s, none))

/-! ## Legacy constructor check and error/reconnect policy (`pybit/__init__.py`) -/

/-- Observable outcome of the legacy `WebSocket.__init__` tail. -/
inductive InitEvent
  | raisedPermissionError
  | connected
deriving DecidableEq, Repr

/-- The private-topic list of the legacy constructor check. -/
def privateTopicNames : List String :=
  ["position", "execution", "order", "stop_order", "wallet"]

/-- The tail of the legacy `WebSocket.__init__`: `if not self.spot and
any(i in subscriptions for i in [...]) and api_key is None: raise
PermissionError(...)`, which precedes `self._connect(self.endpoint)` —
so on a raise no network activity happens. -/
def wsInitEvents (spot : Bool) (subscriptions : List String)
    (api_key : Option String) : List InitEvent :=
  if !spot && privateTopicNames.any (fun t => subscriptions.contains t)
      && api_key.isNone then
    [InitEvent.raisedPermissionError]
  else
    [InitEvent.connected]

/-- Connection state relevant to `WebSocket._on_error` / `exit` /
`_reset` / `_connect`. -/
structure ConnState where
  exited : Bool
  auth : Bool
  handle_error : Bool
  sockOpen : Bool
  data : List (String × List Nat)
deriving DecidableEq, Repr

/-- `WebSocket.exit()`: close the socket, wait until the handle is gone,
mark exited. -/
def wsExitModel (s : ConnState) : ConnState :=
  { s with sockOpen := false, exited := true }

/-- `WebSocket._reset()`: clear the state booleans and the topic cache. -/
def wsResetModel (s : ConnState) : ConnState :=
  { s with exited := false, auth := false, data := [] }

/-- `WebSocket._on_error(error)`: the log-and-exit step runs only when
not already exited, but the reconnect block (`if self.handle_error:
self._reset(); self._connect(self.endpoint)`) is outside that guard.
The boolean reports whether a reset-and-reconnect was performed. -/
def onErrorModel (s : ConnState) : ConnState × Bool :=
  let s1 := if !s.exited then wsExitModel s else s
  if s1.handle_error then ({ wsResetModel s1 with sockOpen := true }, true)
  else (s1, false)

/-! ## Concrete inputs used by witnesses and counterexamples -/

/-- A three-level orderbook cache with distinct ids. -/
def obW1Book : List OBEntry := [⟨1, 100, 10⟩, ⟨2, 101, 20⟩, ⟨3, 102, 30⟩]

/-- A well-formed delta: delete id 2, update id 3, insert id 4. -/
def obW1Delta : OBDelta := ⟨[⟨2, 101, 20⟩], [⟨3, 102, 99⟩], [⟨4, 103, 5⟩]⟩

/-- A one-entry orderbook cache holding id 1. -/
def obC6Book : List OBEntry := [⟨1, 100, 10⟩]

/-- A delta whose insert set reuses the already-cached id 1. -/
def obC6Delta : OBDelta := ⟨[], [], [⟨1, 100, 11⟩]⟩

/-- A two-level orderbook cache with ids 1 and 2. -/
def obC6WBook : List OBEntry := [⟨1, 100, 10⟩, ⟨2, 101, 20⟩]

/-- A delta with fresh insert id 7: delete id 1, update id 2, insert id 7. -/
def obC6WDelta : OBDelta := ⟨[⟨1, 100, 10⟩], [⟨2, 101, 25⟩], [⟨7, 105, 3⟩]⟩

/-- A diff-depth side with two price levels and no zero quantities. -/
def ddWSide : List DDLevel := [(5, 3), (9, 4)]

/-- A legacy connection subscribed to one trade topic with three buffered
entries and `purge_on_fetch` on. -/
def c4State : WSFetchState := ⟨["trade.BTCUSD"], [("trade.BTCUSD", [1, 2, 3])], true⟩

/-- The futures topic template `instrument_info.100ms.\x7b\x7d`. -/
def c5Template : List Char := "instrument_info.100ms.\x7b\x7d".toList

/-- A freshly connected futures manager without credentials. -/
def c5S0 : FWSState := ⟨none, [], [], false⟩

/-- The state after subscribing `c5Template` for BTCUSD with callback 1. -/
def c5S1 : FWSState :=
  ⟨none, [("instrument_info.100ms".toList, 1)],
    [["instrument_info.100ms.BTCUSD".toList]], false⟩

/-- The state after repeating the same subscription with callback 2:
the callback is replaced and a second identical frame has been sent. -/
def c5S2 : FWSState :=
  ⟨none, [("instrument_info.100ms".toList, 2)],
    [["instrument_info.100ms.BTCUSD".toList],
     ["instrument_info.100ms.BTCUSD".toList]], false⟩

/-- A futures manager without credentials and an empty registry. -/
def c7S0 : FWSState := ⟨none, [], [], false⟩

/-- The state after subscribing the private `position` topic on `c7S0`:
the frame went out and the callback was registered, with no credentials. -/
def c7S1 : FWSState := ⟨none, [("position".toList, 5)], [["position".toList]], false⟩

/-- A futures manager with two registered topic families. -/
def c8FutState : FWSState :=
  ⟨none, [("instrument_info.100ms".toList, 1), ("klineV2.1m".toList, 2)], [], false⟩

/-- A failed subscription ack echoing the instrument_info subscription. -/
def c8FailMsg : FMsg :=
  ⟨some "subscribe", some false, "unknown topic",
    ["instrument_info.100ms.BTCUSD".toList], none⟩

/-- A spot manager with one registered conformed topic. -/
def spotFailState : SpotState := ⟨[("k".toList, 7)], false⟩

/-- A spot subscription-failure ack (`code` = "1006"). -/
def spotFailMsg : SpotMsg := ⟨none, none, none, some "1006", none, []⟩

/-- An explicitly exited connection with `restart_on_error` enabled and
a non-empty topic cache. -/
def c9Exited : ConnState := ⟨true, false, true, false, [("trade.BTCUSD", [1, 2])]⟩

/-! ## Shared lemmas about `pyNext` (the `_find_index` generator) -/

lemma pyNext_eq_none_iff {α : Type} (p : α → Bool) (l : List α) :
    pyNext p l = none ↔ ∀ x ∈ l, p x = false := by
  induction l with
  | nil => simp [pyNext]
  | cons x xs ih =>
    by_cases h : p x
    · simp [pyNext, h]
    · simp [pyNext, h, ih]

lemma pyNext_some_getElem {α : Type} (p : α → Bool) :
    ∀ (l : List α) (i : Nat), pyNext p l = some i →
      ∃ x, l[i]? = some x ∧ p x = true := by
  intro l
  induction l with
  | nil => intro i h; simp [pyNext] at h
  | cons x xs ih =>
    intro i h
    by_cases hx : p x
    · simp [pyNext, hx] at h
      subst h
      exact ⟨x, by simp, hx⟩
    · simp [pyNext, hx] at h
      obtain ⟨j, hj, hji⟩ := h
      obtain ⟨y, hy, hpy⟩ := ih j hj
      exact hji ▸ ⟨y, by simpa using hy, hpy⟩

lemma pyNext_erase_filter {α : Type} (k : α → Nat) (tid : Nat) :
    ∀ (l : List α), (l.map k).Nodup → tid ∈ l.map k →
      ∃ i, pyNext (fun x => k x == tid) l = some i ∧
        l.eraseIdx i = l.filter (fun x => k x != tid) := by
  intro l
  induction l with
  | nil => simp
  | cons x xs ih =>
    intro hnd hmem
    rw [List.map_cons, List.nodup_cons] at hnd
    by_cases hx : k x = tid
    · refine ⟨0, by simp [pyNext, hx], ?_⟩
      have hnotin : ∀ y ∈ xs, (k y != tid) = true := by
        intro y hy
        simp only [bne_iff_ne, ne_eq]
        intro hc
        exact hnd.1 (hx ▸ hc ▸ List.mem_map_of_mem k hy)
      simp [List.eraseIdx, hx, List.filter_eq_self.mpr hnotin]
    · have hmem' : tid ∈ xs.map k := by
        rw [List.map_cons, List.mem_cons] at hmem
        rcases hmem with h | h
        · exact absurd h.symm hx
        · exact h
      obtain ⟨i, hfind, herase⟩ := ih hnd.2 hmem'
      refine ⟨i + 1, ?_, ?_⟩
      · simp [pyNext, hx, hfind]
      · simp only [List.eraseIdx_cons_succ, herase]
        have : (k x != tid) = true := by simpa using hx
        simp [List.filter_cons, this]

lemma pyNext_set_map {α : Type} (k : α → Nat) (u : α) :
    ∀ (l : List α), (l.map k).Nodup → k u ∈ l.map k →
      ∃ i, pyNext (fun x => k x == k u) l = some i ∧
        l.set i u = l.map (fun x => if k x == k u then u else x) := by
  intro l
  induction l with
  | nil => simp
  | cons x xs ih =>
    intro hnd hmem
    rw [List.map_cons, List.nodup_cons] at hnd
    by_cases hx : k x = k u
    · refine ⟨0, by simp [pyNext, hx], ?_⟩
      have hxs : xs.map (fun y => if k y == k u then u else y) = xs := by
        have h1 : ∀ y ∈ xs, (if k y == k u then u else y) = id y := by
          intro y hy
          have h2 : (k y == k u) = false := by
            simp only [beq_eq_false_iff_ne, ne_eq]
            intro hc
            exact hnd.1 (hx ▸ hc ▸ List.mem_map_of_mem k hy)
          simp [h2]
        rw [List.map_congr_left h1, List.map_id]
      have hxu : (k x == k u) = true := by simpa using hx
      simp only [List.set_cons_zero, List.map_cons, hxu, if_true, hxs]
    · have hmem' : k u ∈ xs.map k := by
        rw [List.map_cons, List.mem_cons] at hmem
        rcases hmem with h | h
        · exact absurd h.symm hx
        · exact h
      obtain ⟨i, hfind, hset⟩ := ih hnd.2 hmem'
      refine ⟨i + 1, ?_, ?_⟩
      · simp [pyNext, hx, hfind]
      · simp [List.set_cons_succ, hset, List.map_cons, hx]

lemma set_getElem_self : ∀ (l : List Nat) (i : Nat) (a : Nat),
    l[i]? = some a → l.set i a = l := by
  intro l
  induction l with
  | nil => intro i a h; simp at h
  | cons x xs ih =>
    intro i a h
    cases i with
    | zero => simp at h; simp [h]
    | succ j => simp at h; simp [ih j a h]

/-! ## Lemmas about the orderbook delta reducer -/

lemma obApplyDeletes_eq_filter :
    ∀ (dels book : List OBEntry), (book.map OBEntry.id).Nodup →
      (dels.map OBEntry.id).Nodup →
      (∀ e ∈ dels, e.id ∈ book.map OBEntry.id) →
      obApplyDeletes book dels = some (specDeletePhase (dels.map OBEntry.id) book) := by
  intro dels
  induction dels with
  | nil =>
    intro book _ _ _
    simp [obApplyDeletes, specDeletePhase]
  | cons e es ih =>
    intro book hnd hdnd hmem
    rw [List.map_cons, List.nodup_cons] at hdnd
    obtain ⟨i, hfind, herase⟩ :=
      pyNext_erase_filter OBEntry.id e.id book hnd (hmem e (List.mem_cons_self e es))
    have hstep : obDeleteStep book e = some (book.filter (fun x => x.id != e.id)) := by
      rw [obDeleteStep, findIndexOB, hfind, Option.map_some', herase]
    have hnd' : ((book.filter (fun x => x.id != e.id)).map OBEntry.id).Nodup :=
      ((List.filter_sublist book).map OBEntry.id).nodup hnd
    have hmem' : ∀ x ∈ es, x.id ∈ (book.filter (fun y => y.id != e.id)).map OBEntry.id := by
      intro x hx
      have hxid : x.id ∈ book.map OBEntry.id := hmem x (List.mem_cons_of_mem e hx)
      obtain ⟨y, hy, hyid⟩ := List.mem_map.mp hxid
      have hne : (y.id != e.id) = true := by
        simp only [bne_iff_ne, ne_eq, hyid]
        intro hc
        exact hdnd.1 (hc ▸ List.mem_map_of_mem OBEntry.id hx)
      exact List.mem_map.mpr ⟨y, List.mem_filter.mpr ⟨hy, hne⟩, hyid⟩
    rw [obApplyDeletes, hstep, Option.some_bind, ih _ hnd' hdnd.2 hmem']
    congr 1
    unfold specDeletePhase
    rw [List.filter_filter]
    apply List.filter_congr
    intro x _
    rw [List.map_cons, List.contains_cons]
    cases h1 : x.id == e.id <;> cases h2 : (es.map OBEntry.id).contains x.id <;>
      simp [bne, h1, h2]

lemma obApplyUpdates_eq_spec :
    ∀ (upds book : List OBEntry), (book.map OBEntry.id).Nodup →
      (upds.map OBEntry.id).Nodup →
      (∀ u ∈ upds, u.id ∈ book.map OBEntry.id) →
      obApplyUpdates book upds = some (specUpdatePhase upds book) := by
  intro upds
  induction upds with
  | nil =>
    intro book _ _ _
    simp [obApplyUpdates, specUpdatePhase]
  | cons u us ih =>
    intro book hnd hund hmem
    rw [List.map_cons, List.nodup_cons] at hund
    obtain ⟨i, hfind, hset⟩ :=
      pyNext_set_map OBEntry.id u book hnd (hmem u (List.mem_cons_self u us))
    have hstep : obUpdateStep book u
        = some (book.map (fun x => if x.id == u.id then u else x)) := by
      rw [obUpdateStep, findIndexOB, hfind, Option.map_some', hset]
    have hids : (book.map (fun x => if x.id == u.id then u else x)).map OBEntry.id
        = book.map OBEntry.id := by
      rw [List.map_map]
      apply List.map_congr_left
      intro x _
      by_cases h : x.id = u.id <;> simp [h]
    have hnd' : ((book.map (fun x => if x.id == u.id then u else x)).map OBEntry.id).Nodup := by
      rw [hids]; exact hnd
    have hmem' : ∀ v ∈ us,
        v.id ∈ (book.map (fun x => if x.id == u.id then u else x)).map OBEntry.id := by
      intro v hv
      rw [hids]
      exact hmem v (List.mem_cons_of_mem u hv)
    rw [obApplyUpdates, hstep, Option.some_bind, ih _ hnd' hund.2 hmem']
    congr 1
    unfold specUpdatePhase
    rw [List.map_map]
    apply List.map_congr_left
    intro x _
    by_cases h : x.id = u.id
    · have hfindnone : us.find? (fun v => v.id == u.id) = none := by
        rw [List.find?_eq_none]
        intro v hv
        simp only [beq_iff_eq]
        intro hc
        exact hund.1 (hc ▸ List.mem_map_of_mem OBEntry.id hv)
      simp [Function.comp, h, hfindnone, List.find?_cons]
    · have hne : (u.id == x.id) = false := by
        simp only [beq_eq_false_iff_ne, ne_eq]
        exact fun hc => h hc.symm
      simp [Function.comp, h, List.find?_cons, hne]

lemma obApplyDeletes_sublist :
    ∀ (dels book b : List OBEntry), obApplyDeletes book dels = some b →
      b.Sublist book := by
  intro dels
  induction dels with
  | nil =>
    intro book b h
    simp [obApplyDeletes] at h
    exact h ▸ List.Sublist.refl b
  | cons e es ih =>
    intro book b h
    rw [obApplyDeletes] at h
    cases hstep : obDeleteStep book e with
    | none => rw [hstep] at h; simp at h
    | some b1 =>
      rw [hstep, Option.some_bind] at h
      have hb1 : b1.Sublist book := by
        rw [obDeleteStep] at hstep
        obtain ⟨i, _, hi⟩ := Option.map_eq_some'.mp hstep
        exact hi ▸ List.eraseIdx_sublist book i
      exact (ih b1 b h).trans hb1

lemma obApplyUpdates_ids_eq :
    ∀ (upds book b : List OBEntry), obApplyUpdates book upds = some b →
      b.map OBEntry.id = book.map OBEntry.id := by
  intro upds
  induction upds with
  | nil =>
    intro book b h
    simp [obApplyUpdates] at h
    rw [h]
  | cons u us ih =>
    intro book b h
    rw [obApplyUpdates] at h
    cases hstep : obUpdateStep book u with
    | none => rw [hstep] at h; simp at h
    | some b1 =>
      rw [hstep, Option.some_bind] at h
      have hb1 : b1.map OBEntry.id = book.map OBEntry.id := by
        rw [obUpdateStep, findIndexOB] at hstep
        obtain ⟨i, hfind, hi⟩ := Option.map_eq_some'.mp hstep
        obtain ⟨x, hx, hpx⟩ := pyNext_some_getElem _ book i hfind
        have hxid : (book.map OBEntry.id)[i]? = some u.id := by
          rw [List.getElem?_map, hx, Option.map_some']
          simp only [beq_iff_eq] at hpx
          rw [hpx]
        rw [← hi, List.map_set, set_getElem_self _ _ _ hxid]
      exact (ih b1 b h).trans hb1

/-! ## Lemmas about the diff-depth reducer -/

lemma ddApplyEntry_zero_present (side : List DDLevel) (p : Nat)
    (hnd : (side.map Prod.fst).Nodup) (hmem : p ∈ side.map Prod.fst) :
    ddApplyEntry side (p, 0) = some (side.filter (fun l => l.1 != p)) := by
  obtain ⟨i, hfind, herase⟩ := pyNext_erase_filter Prod.fst p side hnd hmem
  rw [ddApplyEntry, if_pos rfl, findIndexDD]
  rw [show ((p, 0) : DDLevel).1 = p from rfl, hfind, Option.map_some', herase]

lemma ddApplyEntry_zero_absent (side : List DDLevel) (p : Nat)
    (hmem : p ∉ side.map Prod.fst) :
    ddApplyEntry side (p, 0) = none := by
  have hfind : pyNext (fun l : DDLevel => l.1 == p) side = none := by
    rw [pyNext_eq_none_iff]
    intro x hx
    simp only [beq_eq_false_iff_ne, ne_eq]
    intro hc
    exact hmem (hc ▸ List.mem_map_of_mem Prod.fst hx)
  rw [ddApplyEntry, if_pos rfl, findIndexDD]
  rw [show ((p, 0) : DDLevel).1 = p from rfl, hfind, Option.map_none']

lemma ddApplyEntry_append (side : List DDLevel) (p q : Nat) (hq : q ≠ 0)
    (hmem : p ∉ side.map Prod.fst) :
    ddApplyEntry side (p, q) = some (side ++ [(p, q)]) := by
  have hfind : side.find? (fun l => l.1 == p) = none := by
    rw [List.find?_eq_none]
    intro x hx
    simp only [beq_iff_eq]
    intro hc
    exact hmem (hc ▸ List.mem_map_of_mem Prod.fst hx)
  rw [ddApplyEntry, if_neg hq, show ((p, q) : DDLevel).1 = p from rfl, hfind]

lemma ddApplyEntry_overwrite (side : List DDLevel) (p q : Nat) (hq : q ≠ 0)
    (hnd : (side.map Prod.fst).Nodup) (hmem : p ∈ side.map Prod.fst) :
    ddApplyEntry side (p, q)
      = some (side.map (fun l => if l.1 == p then (p, q) else l)) := by
  rw [ddApplyEntry, if_neg hq, show ((p, q) : DDLevel).1 = p from rfl]
  cases hfind : side.find? (fun l => l.1 == p) with
  | none =>
    exfalso
    rw [List.find?_eq_none] at hfind
    obtain ⟨x, hx, hxp⟩ := List.mem_map.mp hmem
    exact hfind x hx (by simpa using hxp)
  | some l0 =>
    have hl0p : l0.1 = p := by simpa using List.find?_some hfind
    have hl0mem : l0 ∈ side := List.mem_of_find?_eq_some hfind
    dsimp only
    by_cases hch : q = l0.2
    · rw [if_neg (by simp [hch])]
      congr 1
      have : ∀ x ∈ side, (if x.1 == p then ((p, q) : DDLevel) else x) = id x := by
        intro x hx
        by_cases hxp : x.1 = p
        · have hxl0 : x = l0 :=
            List.inj_on_of_nodup_map hnd hx hl0mem (by rw [hxp, hl0p])
          have : x = (p, q) := by
            rw [hxl0]
            have : l0 = (l0.1, l0.2) := rfl
            rw [this, hl0p, ← hch]
          simp [hxp, ← this]
        · simp [hxp]
      rw [List.map_congr_left this, List.map_id]
    · rw [if_pos hch]
      obtain ⟨i, hfind2, hset⟩ :=
        pyNext_set_map Prod.fst ((p, q) : DDLevel) side hnd (by simpa using hmem)
      rw [findIndexDD, hfind2, Option.map_some', hset]

lemma ddApplyEntry_no_zero (side side' : List DDLevel) (e : DDLevel)
    (h : ddApplyEntry side e = some side') (hzf : ∀ l ∈ side, l.2 ≠ 0) :
    ∀ l ∈ side', l.2 ≠ 0 := by
  rw [ddApplyEntry] at h
  by_cases hq : e.2 = 0
  · rw [if_pos hq] at h
    obtain ⟨i, _, hi⟩ := Option.map_eq_some'.mp h
    intro l hl
    exact hzf l (List.Sublist.mem (hi ▸ hl) (List.eraseIdx_sublist side i))
  · rw [if_neg hq] at h
    cases hfind : side.find? (fun l => l.1 == e.1) with
    | none =>
      rw [hfind] at h
      obtain rfl : side ++ [e] = side' := by simpa using h
      intro l hl
      rcases List.mem_append.mp hl with h1 | h1
      · exact hzf l h1
      · rw [List.mem_singleton.mp h1]; exact hq
    | some l0 =>
      rw [hfind] at h
      dsimp only at h
      by_cases hch : e.2 ≠ l0.2
      · rw [if_pos hch] at h
        obtain ⟨i, _, hi⟩ := Option.map_eq_some'.mp h
        intro l hl
        rcases List.mem_or_eq_of_mem_set (hi ▸ hl) with h1 | h1
        · exact hzf l h1
        · rw [h1]; exact hq
      · rw [if_neg hch] at h
        obtain rfl : side = side' := by simpa using h
        exact hzf

lemma ddApplySide_no_zero :
    ∀ (entries side side' : List DDLevel),
      ddApplySide side entries = some side' → (∀ l ∈ side, l.2 ≠ 0) →
      ∀ l ∈ side', l.2 ≠ 0 := by
  intro entries
  induction entries with
  | nil =>
    intro side side' h hzf
    obtain rfl : side = side' := by simpa [ddApplySide] using h
    exact hzf
  | cons e es ih =>
    intro side side' h hzf
    rw [ddApplySide] at h
    cases hstep : ddApplyEntry side e with
    | none => rw [hstep] at h; simp at h
    | some s1 =>
      rw [hstep, Option.some_bind] at h
      exact ih s1 side' h (ddApplyEntry_no_zero side s1 e hstep hzf)

/-! ## Lemmas about the dict operations of the registries and caches -/

lemma lookupKey_filterOut_self (d : List (List Char × Nat)) (k : List Char) :
    lookupKey (d.filter (fun kv => !(kv.1 == k))) k = none := by
  rw [lookupKey]
  have : (d.filter (fun kv => !(kv.1 == k))).find? (fun kv => kv.1 == k) = none := by
    rw [List.find?_eq_none]
    intro kv hkv
    have := (List.mem_filter.mp hkv).2
    simp at this
    simp [this]
  rw [this, Option.map_none']

lemma find?_filterOut_of_ne (d : List (List Char × Nat)) (k k' : List Char)
    (h : k' ≠ k) :
    (d.filter (fun kv => !(kv.1 == k))).find? (fun kv => kv.1 == k')
      = d.find? (fun kv => kv.1 == k') := by
  induction d with
  | nil => rfl
  | cons kv rest ih =>
    by_cases hk : kv.1 = k
    · have h2 : ¬((kv.1 == k') = true) := by
        simp only [beq_iff_eq, hk]
        exact fun hc => h hc.symm
      rw [List.filter_cons_of_neg (by simp [hk]), ih,
        List.find?_cons_of_neg rest h2]
    · rw [List.filter_cons_of_pos (by simp [hk])]
      by_cases hk2 : kv.1 = k'
      · rw [List.find?_cons_of_pos _ (by simp [hk2]),
          List.find?_cons_of_pos _ (by simp [hk2])]
      · rw [List.find?_cons_of_neg _ (by simp [hk2]),
          List.find?_cons_of_neg _ (by simp [hk2]), ih]

lemma lookupKey_filterOut_other (d : List (List Char × Nat)) (k k' : List Char)
    (h : k' ≠ k) :
    lookupKey (d.filter (fun kv => !(kv.1 == k))) k' = lookupKey d k' := by
  rw [lookupKey, lookupKey, find?_filterOut_of_ne d k k' h]

lemma lookupData_cons_of_pos (x : String × List Nat) (l : List (String × List Nat))
    (k : String) (h : (x.1 == k) = true) : lookupData (x :: l) k = x.2 := by
  rw [lookupData, @List.find?_cons_of_pos _ (fun kv => kv.1 == k) x l h]

lemma lookupData_cons_of_neg (x : String × List Nat) (l : List (String × List Nat))
    (k : String) (h : ¬(x.1 == k) = true) : lookupData (x :: l) k = lookupData l k := by
  rw [lookupData, @List.find?_cons_of_neg _ (fun kv => kv.1 == k) x l h, lookupData]

lemma lookupData_map_replace (k : String) (v : List Nat) :
    ∀ (d : List (String × List Nat)), d.any (fun kv => kv.1 == k) = true →
      lookupData (d.map (fun kv => if kv.1 == k then (kv.1, v) else kv)) k = v := by
  intro d
  induction d with
  | nil => intro hc; simp at hc
  | cons kv rest ih =>
    intro hc
    by_cases hk : kv.1 = k
    · rw [List.map_cons, if_pos (show (kv.1 == k) = true by simp [hk]),
        lookupData_cons_of_pos _ _ _ (by simp [hk])]
    · rw [List.map_cons, if_neg (show ¬(kv.1 == k) = true by simp [hk]),
        lookupData_cons_of_neg _ _ _ (by simp [hk])]
      apply ih
      rw [List.any_cons] at hc
      rcases Bool.or_eq_true_iff.mp hc with h2 | h2
      · exact absurd h2 (by simp [hk])
      · exact h2

lemma lookupData_append_single (k : String) (v : List Nat) :
    ∀ (d : List (String × List Nat)), d.any (fun kv => kv.1 == k) = false →
      lookupData (d ++ [(k, v)]) k = v := by
  intro d
  induction d with
  | nil => intro _; rw [List.nil_append, lookupData_cons_of_pos _ _ _ (by simp)]
  | cons kv rest ih =>
    intro hc
    rw [List.any_cons, Bool.or_eq_false_iff] at hc
    rw [List.cons_append, lookupData_cons_of_neg _ _ _ (by simp [hc.1])]
    exact ih hc.2

lemma lookupData_setData_self (d : List (String × List Nat)) (k : String)
    (v : List Nat) : lookupData (setData d k v) k = v := by
  rw [setData]
  by_cases hc : d.any (fun kv => kv.1 == k)
  · rw [if_pos hc]
    exact lookupData_map_replace k v d hc
  · rw [if_neg hc]
    exact lookupData_append_single k v d (Bool.eq_false_iff.mpr hc)

/-! ## Lemmas about topic formatting and symbol stripping -/

lemma pyFormat_append (sym : List Char) :
    ∀ (xs ys : List Char), '\x7b' ∉ xs →
      pyFormat sym (xs ++ ys) = xs ++ pyFormat sym ys := by
  intro xs
  induction xs with
  | nil => intro ys _; rfl
  | cons c xs' ih =>
    intro ys h
    rw [List.mem_cons, not_or] at h
    rw [List.cons_append]
    cases hsplit : xs' ++ ys with
    | nil =>
      obtain ⟨h1, h2⟩ := List.append_eq_nil.mp hsplit
      subst h1; subst h2
      simp [pyFormat]
    | cons d t =>
      have hcond : ¬(c = '\x7b' ∧ d = '\x7d') := fun hc => h.1 hc.1.symm
      calc pyFormat sym (c :: d :: t)
          = c :: pyFormat sym (d :: t) := by rw [pyFormat, if_neg hcond]
        _ = c :: pyFormat sym (xs' ++ ys) := by rw [hsplit]
        _ = c :: (xs' ++ pyFormat sym ys) := by rw [ih ys h.2]

lemma pyFormat_braces (sym : List Char) :
    pyFormat sym ('\x7b' :: '\x7d' :: []) = sym := by
  rw [pyFormat, if_pos ⟨rfl, rfl⟩, pyFormat, List.append_nil]

lemma pyFormat_template (sym fam : List Char) (hfam : '\x7b' ∉ fam) :
    pyFormat sym (fam ++ '.' :: '\x7b' :: '\x7d' :: []) = fam ++ '.' :: sym := by
  have h1 : '\x7b' ∉ fam ++ ['.'] := by
    intro hc
    rcases List.mem_append.mp hc with h2 | h2
    · exact hfam h2
    · simp at h2
  have h2 : fam ++ '.' :: '\x7b' :: '\x7d' :: []
      = (fam ++ ['.']) ++ ('\x7b' :: '\x7d' :: []) := by
    rw [List.append_assoc]; rfl
  rw [h2, pyFormat_append sym (fam ++ ['.']) _ h1, pyFormat_braces,
    List.append_assoc]
  rfl

lemma beforeLastDot_eq_none (l : List Char) (h : '.' ∉ l) :
    beforeLastDot l = none := by
  induction l with
  | nil => rfl
  | cons c rest ih =>
    rw [List.mem_cons, not_or] at h
    rw [beforeLastDot, ih h.2, if_neg (fun hc => h.1 hc.symm)]

lemma beforeLastDot_append (xs : List Char) :
    ∀ (suf : List Char), '.' ∉ suf →
      beforeLastDot (xs ++ '.' :: suf) = some xs := by
  induction xs with
  | nil =>
    intro suf h
    rw [List.nil_append, beforeLastDot, beforeLastDot_eq_none suf h, if_pos rfl]
  | cons c xs' ih =>
    intro suf h
    rw [List.cons_append, beforeLastDot, ih suf h]

lemma privateTopics_no_dot : ∀ t ∈ privateTopics, '.' ∉ t := by decide

lemma extractTopic_strips_symbol (xs suf : List Char) (hsuf : '.' ∉ suf) :
    extractTopic (xs ++ '.' :: suf) = some xs := by
  rw [extractTopic, if_neg, beforeLastDot_append xs suf hsuf]
  intro hmem
  exact privateTopics_no_dot _ hmem (by simp)

lemma extractTopic_private (t : List Char) (h : t ∈ privateTopics) :
    extractTopic t = some t := by
  rw [extractTopic, if_pos h]

/-! ## Claim theorems -/

/-- C1: For every orderbook delta push, the reducer applies the three
operation sets in order — first every cached entry whose id appears in
the delete set is removed, then every cached entry whose id appears in
the update set is overwritten in place, then the insert entries are
appended — with identifier lookup by exact match on the id field; and if
an id named in the delete or update set is not found in the cached list,
the `StopIteration` (`none`) propagates from the dispatch path instead of
being silently ignored. -/
theorem orderbook_delta_order_and_fault
    (book : List OBEntry) (d : OBDelta)
    (hbook : (book.map OBEntry.id).Nodup)
    (hdel : (d.delete.map OBEntry.id).Nodup)
    (hupd : (d.update.map OBEntry.id).Nodup)
    (hdm : ∀ e ∈ d.delete, e.id ∈ book.map OBEntry.id)
    (hum : ∀ u ∈ d.update,
      u.id ∈ book.map OBEntry.id ∧ u.id ∉ d.delete.map OBEntry.id) :
    obApplyDelta book d
      = some (specUpdatePhase d.update
          (specDeletePhase (d.delete.map OBEntry.id) book) ++ d.insert)
    ∧ (∀ (b : List OBEntry) (e : OBEntry) (rest : List OBEntry),
        (∀ x ∈ b, x.id ≠ e.id) →
        obApplyDeletes b (e :: rest) = none ∧ obApplyUpdates b (e :: rest) = none)
    ∧ (obApplyDeletes book d.delete = none → obApplyDelta book d = none) := by
  refine ⟨?_, ?_, ?_⟩
  · rw [obApplyDelta, obApplyDeletes_eq_filter d.delete book hbook hdel hdm,
      Option.some_bind]
    have hnd1 : ((specDeletePhase (d.delete.map OBEntry.id) book).map OBEntry.id).Nodup := by
      unfold specDeletePhase
      exact ((List.filter_sublist book).map OBEntry.id).nodup hbook
    have hm1 : ∀ u ∈ d.update,
        u.id ∈ (specDeletePhase (d.delete.map OBEntry.id) book).map OBEntry.id := by
      intro u hu
      obtain ⟨hmemb, hnotdel⟩ := hum u hu
      obtain ⟨y, hy, hyid⟩ := List.mem_map.mp hmemb
      refine List.mem_map.mpr ⟨y, List.mem_filter.mpr ⟨hy, ?_⟩, hyid⟩
      have : y.id ∉ d.delete.map OBEntry.id := hyid ▸ hnotdel
      simp [this]
    rw [obApplyUpdates_eq_spec d.update _ hnd1 hupd hm1, Option.map_some']
  · intro b e rest hx
    have hnone : pyNext (fun x : OBEntry => x.id == e.id) b = none := by
      rw [pyNext_eq_none_iff]
      intro x hxb
      simpa using hx x hxb
    constructor
    · rw [obApplyDeletes, obDeleteStep, findIndexOB, hnone]
      rfl
    · rw [obApplyUpdates, obUpdateStep, findIndexOB, hnone]
      rfl
  · intro h
    rw [obApplyDelta, h]
    rfl

/-- Witness for C1 at a concrete book and delta. -/
theorem orderbook_delta_order_and_fault_witness :
    obApplyDelta obW1Book obW1Delta
      = some (specUpdatePhase obW1Delta.update
          (specDeletePhase (obW1Delta.delete.map OBEntry.id) obW1Book)
          ++ obW1Delta.insert) :=
  (orderbook_delta_order_and_fault obW1Book obW1Delta (by decide) (by decide)
    (by decide) (by decide) (by decide)).1

/-- C2 counterexample: pushing `[price, qty]` with `qty = 0` for a price
that is absent is NOT a no-op — `_find_index` raises `StopIteration`
(`none`), instead of returning the side unchanged as the claim states. -/
theorem diffdepth_zero_absent_counterexample :
    ddApplyEntry [(5, 3)] (7, 0) = none
    ∧ ddApplyEntry [(5, 3)] (7, 0) ≠ some [(5, 3)] := by decide

/-- C2 amended: after seeding, pushing `[price, 0]` removes the level
when the price is present and raises a consistency fault (`none`) when it
is absent; a pair with a fresh price is appended; a pair with a present
price is overwritten in place; successful pushes never introduce a
zero-quantity level into a side that had none; and the first push seeds
the cache directly. -/
theorem diffdepth_amended :
    (∀ (side : List DDLevel) (p : Nat), (side.map Prod.fst).Nodup →
        p ∈ side.map Prod.fst →
        ddApplyEntry side (p, 0) = some (side.filter (fun l => l.1 != p)))
    ∧ (∀ (side : List DDLevel) (p : Nat), p ∉ side.map Prod.fst →
        ddApplyEntry side (p, 0) = none)
    ∧ (∀ (side : List DDLevel) (p q : Nat), q ≠ 0 → p ∉ side.map Prod.fst →
        ddApplyEntry side (p, q) = some (side ++ [(p, q)]))
    ∧ (∀ (side : List DDLevel) (p q : Nat), q ≠ 0 → (side.map Prod.fst).Nodup →
        p ∈ side.map Prod.fst →
        ddApplyEntry side (p, q)
          = some (side.map (fun l => if l.1 == p then (p, q) else l)))
    ∧ (∀ (entries side side' : List DDLevel), ddApplySide side entries = some side' →
        (∀ l ∈ side, l.2 ≠ 0) → ∀ l ∈ side', l.2 ≠ 0)
    ∧ (∀ (pb pa : List DDLevel), ddApplyPush none pb pa = some (some ⟨pb, pa⟩)) :=
  ⟨ddApplyEntry_zero_present, ddApplyEntry_zero_absent, ddApplyEntry_append,
   ddApplyEntry_overwrite, ddApplySide_no_zero, fun _ _ => rfl⟩

/-- Witness for the amended C2 at a concrete side. -/
theorem diffdepth_amended_witness :
    ddApplyEntry ddWSide (5, 0) = some (ddWSide.filter (fun l => l.1 != 5))
    ∧ ddApplyEntry ddWSide (7, 0) = none
    ∧ ddApplyEntry ddWSide (7, 2) = some (ddWSide ++ [(7, 2)])
    ∧ ddApplyEntry ddWSide (5, 9)
        = some (ddWSide.map (fun l => if l.1 == 5 then (5, 9) else l)) :=
  ⟨diffdepth_amended.1 ddWSide 5 (by decide) (by decide),
   diffdepth_amended.2.1 ddWSide 7 (by decide),
   diffdepth_amended.2.2.1 ddWSide 7 2 (by decide) (by decide),
   diffdepth_amended.2.2.2.1 ddWSide 5 9 (by decide) (by decide) (by decide)⟩

/-- C3 counterexample: with cap K = 1, one push appending two entries to
a one-entry buffer leaves two entries — only one entry is evicted, so the
buffer exceeds the cap and does not equal the most recent K entries. -/
theorem trades_eviction_counterexample :
    pushTrades 1 (some [10]) [11, 12] = [11, 12]
    ∧ ([11, 12] : List Nat).length ≠ 1
    ∧ pushTrades 1 (some [10]) [11, 12] ≠ [12] := by decide

/-- C3 amended: when the resulting length exceeds the cap, exactly one
entry is evicted from the front (never more); consequently only for
single-entry pushes does the buffer stay at the cap holding the most
recent entries. -/
theorem trades_single_eviction :
    ∀ (K : Nat) (l data : List Nat),
      (K < (l ++ data).length → pushTrades K (some l) data = (l ++ data).drop 1)
      ∧ ((l ++ data).length ≤ K → pushTrades K (some l) data = l ++ data)
      ∧ (∀ e : Nat, l.length ≤ K →
          pushTrades K (some l) [e] = (l ++ [e]).drop (l.length + 1 - K)
          ∧ (pushTrades K (some l) [e]).length ≤ K) := by
  intro K l data
  refine ⟨?_, ?_, ?_⟩
  · intro h
    rw [pushTrades]
    rw [if_pos h]
  · intro h
    rw [pushTrades]
    rw [if_neg (not_lt.mpr h)]
  · intro e h
    rw [pushTrades]
    have hlen : (l ++ [e]).length = l.length + 1 := by simp
    by_cases hK : K < (l ++ [e]).length
    · rw [if_pos hK]
      rw [hlen] at hK
      have hd : l.length + 1 - K = 1 := by omega
      rw [hd]
      exact ⟨rfl, by rw [List.length_drop, hlen]; omega⟩
    · rw [if_neg hK]
      rw [hlen] at hK
      have hd : l.length + 1 - K = 0 := by omega
      rw [hd, List.drop_zero]
      exact ⟨rfl, by rw [hlen]; omega⟩

/-- Witness for the amended C3 at concrete caps and buffers. -/
theorem trades_single_eviction_witness :
    pushTrades 2 (some [10, 11]) [12, 13] = (([10, 11] : List Nat) ++ [12, 13]).drop 1
    ∧ pushTrades 5 (some [10, 11]) [12, 13] = ([10, 11] : List Nat) ++ [12, 13]
    ∧ pushTrades 2 (some [10, 11]) [12]
        = (([10, 11] : List Nat) ++ [12]).drop (([10, 11] : List Nat).length + 1 - 2) :=
  ⟨(trades_single_eviction 2 [10, 11] [12, 13]).1 (by decide),
   (trades_single_eviction 5 [10, 11] [12, 13]).2.1 (by decide),
   ((trades_single_eviction 2 [10, 11] [12]).2.2 12 (by decide)).1⟩

/-- C4: for a subscribed trade/execution topic with `purge_on_fetch` on,
`fetch` returns a snapshot of the buffer and clears the live buffer, so a
second fetch with no intervening push returns empty — each pushed entry
is seen exactly once across polls. -/
theorem fetch_purge_drains_once (s : WSFetchState) (topic : String)
    (hsub : topic ∈ s.subscriptions) (ht : isTradeLike topic = true)
    (hp : s.purge = true) :
    (wsFetch s topic).1 = some (lookupData s.data topic)
    ∧ lookupData ((wsFetch s topic).2).data topic = []
    ∧ (wsFetch (wsFetch s topic).2 topic).1 = some [] := by
  have h1 : wsFetch s topic
      = (some (lookupData s.data topic),
          { s with data := setData s.data topic [] }) := by
    rw [wsFetch, if_pos hsub, if_pos ht, hp, if_pos rfl]
  refine ⟨by rw [h1], by rw [h1]; exact lookupData_setData_self s.data topic [], ?_⟩
  rw [h1]
  rw [wsFetch, if_pos hsub, if_pos ht]
  have h2 : ({ s with data := setData s.data topic [] } : WSFetchState).purge = true := hp
  rw [h2, if_pos rfl]
  rw [show ({ s with data := setData s.data topic [] } : WSFetchState).data
      = setData s.data topic [] from rfl]
  rw [lookupData_setData_self s.data topic []]

/-- Witness for C4 at a concrete purge-enabled state. -/
theorem fetch_purge_drains_once_witness :
    (wsFetch c4State "trade.BTCUSD").1 = some (lookupData c4State.data "trade.BTCUSD")
    ∧ lookupData ((wsFetch c4State "trade.BTCUSD").2).data "trade.BTCUSD" = []
    ∧ (wsFetch (wsFetch c4State "trade.BTCUSD").2 "trade.BTCUSD").1 = some [] :=
  fetch_purge_drains_once c4State "trade.BTCUSD" (by decide) (by decide) (by decide)

/-- C5 (code bug): the futures duplicate-subscription check compares the
symbol-formatted args against the symbol-stripped registry keys, so
repeating the identical subscription raises nothing: the call succeeds, a
second identical frame is sent, and the registered callback is silently
replaced — while the claim (and the check's own error message) say a
duplicate raises before a second frame is sent. -/
theorem futures_duplicate_subscribe_sends_second_frame :
    fSubscribe c5S0 c5Template 1 ["BTCUSD".toList] = some c5S1
    ∧ fSubscribe c5S1 c5Template 2 ["BTCUSD".toList] = some c5S2
    ∧ c5S2.frames.length = 2
    ∧ lookupKey c5S2.callback_directory "instrument_info.100ms".toList = some 2 := by
  decide

/-- C6 counterexample: identifier uniqueness is NOT preserved by every
insert — a delta whose insert set reuses a cached id appends it
unconditionally, leaving two entries with id 1. -/
theorem orderbook_insert_duplicate_id_counterexample :
    ((obC6Book.map OBEntry.id).Nodup)
    ∧ obApplyDelta obC6Book obC6Delta = some [⟨1, 100, 10⟩, ⟨1, 100, 11⟩]
    ∧ ¬ (([⟨1, 100, 10⟩, ⟨1, 100, 11⟩] : List OBEntry).map OBEntry.id).Nodup := by
  decide

/-- C6 amended: delete and update steps preserve identifier uniqueness
unconditionally; a whole delta push preserves it provided the inserted
ids are pairwise distinct and absent from the cached book (the code
appends inserts without any check, so freshness is an assumption on the
server's pushes, not an enforced invariant). -/
theorem orderbook_ids_nodup_amended
    (book : List OBEntry) (d : OBDelta) (b : List OBEntry)
    (hnd : (book.map OBEntry.id).Nodup)
    (h : obApplyDelta book d = some b)
    (hins : (d.insert.map OBEntry.id).Nodup)
    (hfresh : ∀ i ∈ d.insert.map OBEntry.id, i ∉ book.map OBEntry.id) :
    (b.map OBEntry.id).Nodup
    ∧ (∀ (b0 : List OBEntry) (e : OBEntry) (b1 : List OBEntry),
        obDeleteStep b0 e = some b1 → (b0.map OBEntry.id).Nodup →
        (b1.map OBEntry.id).Nodup)
    ∧ (∀ (b0 : List OBEntry) (e : OBEntry) (b1 : List OBEntry),
        obUpdateStep b0 e = some b1 → (b0.map OBEntry.id).Nodup →
        (b1.map OBEntry.id).Nodup) := by
  refine ⟨?_, ?_, ?_⟩
  · rw [obApplyDelta] at h
    cases hdel : obApplyDeletes book d.delete with
    | none => rw [hdel] at h; simp at h
    | some b1 =>
      rw [hdel, Option.some_bind] at h
      cases hupd : obApplyUpdates b1 d.update with
      | none => rw [hupd] at h; simp at h
      | some b2 =>
        rw [hupd, Option.map_some'] at h
        obtain rfl : b2 ++ d.insert = b := by simpa using h
        have hsub : b1.Sublist book := obApplyDeletes_sublist d.delete book b1 hdel
        have hnd1 : (b1.map OBEntry.id).Nodup := (hsub.map OBEntry.id).nodup hnd
        have hids : b2.map OBEntry.id = b1.map OBEntry.id :=
          obApplyUpdates_ids_eq d.update b1 b2 hupd
        rw [List.map_append, List.nodup_append]
        refine ⟨hids ▸ hnd1, hins, ?_⟩
        intro a ha hains
        have ha1 : a ∈ b1.map OBEntry.id := hids ▸ ha
        have ha2 : a ∈ book.map OBEntry.id :=
          List.Sublist.mem ha1 (hsub.map OBEntry.id)
        exact hfresh a hains ha2
  · intro b0 e b1 hstep hnd0
    rw [obDeleteStep] at hstep
    obtain ⟨i, _, hi⟩ := Option.map_eq_some'.mp hstep
    exact ((hi ▸ List.eraseIdx_sublist b0 i : b1.Sublist b0).map OBEntry.id).nodup hnd0
  · intro b0 e b1 hstep hnd0
    have hsingle : obApplyUpdates b0 [e] = some b1 := by
      rw [obApplyUpdates, hstep]
      rfl
    rw [obApplyUpdates_ids_eq [e] b0 b1 hsingle]
    exact hnd0

/-- Witness for the amended C6 at a concrete book and delta. -/
theorem orderbook_ids_nodup_amended_witness :
    (([⟨2, 101, 25⟩, ⟨7, 105, 3⟩] : List OBEntry).map OBEntry.id).Nodup :=
  (orderbook_ids_nodup_amended obC6WBook obC6WDelta [⟨2, 101, 25⟩, ⟨7, 105, 3⟩]
    (by decide) (by decide) (by decide) (by decide)).1

/-- C7 counterexample: on the restructured futures manager, subscribing
to the private `position` topic with no credentials raises nothing — the
subscribe succeeds and the subscription frame goes out (network
activity), contradicting the claimed synchronous `PermissionError`. -/
theorem futures_private_subscribe_without_auth_counterexample :
    c7S0.apiKey = none
    ∧ fSubscribe c7S0 "position".toList 5 [] = some c7S1
    ∧ c7S1.frames = [["position".toList]] := by decide

/-- C7 amended: the legacy `WebSocket` constructor raises
`PermissionError` before connecting whenever a private topic appears in
the subscription list without an api key; the restructured futures
manager performs no credential check at subscribe time — a private-topic
subscribe always sends the frame and registers the callback, regardless
of `apiKey`. -/
theorem private_topic_auth_check :
    (∀ subs : List String,
      privateTopicNames.any (fun t => subs.contains t) = true →
      wsInitEvents false subs none = [InitEvent.raisedPermissionError]
      ∧ InitEvent.connected ∉ wsInitEvents false subs none)
    ∧ (∀ (s : FWSState) (t : List Char) (cb : Nat) (syms : List (List Char)),
      t ∈ privateTopics → containsKey s.callback_directory t = false →
      fSubscribe s t cb syms
        = some { s with
            frames := s.frames ++ [[t]],
            callback_directory := setKey s.callback_directory t cb }) := by
  constructor
  · intro subs hany
    have h1 : wsInitEvents false subs none = [InitEvent.raisedPermissionError] := by
      rw [wsInitEvents, if_pos (show (!false
          && privateTopicNames.any (fun t => subs.contains t)
          && (none : Option String).isNone) = true by
        simp only [Bool.not_false, Bool.true_and, Option.isNone_none,
          Bool.and_true]
        exact hany)]
    exact ⟨h1, by rw [h1]; decide⟩
  · intro s t cb syms hpriv hnotin
    have hargs : prepareArgs t syms = [t] := by
      rw [prepareArgs, if_pos hpriv]
    rw [fSubscribe, hargs, extractTopic_private t hpriv]
    rw [show ([t].any (fun x => containsKey s.callback_directory x))
        = containsKey s.callback_directory t from by
      rw [List.any_cons, List.any_nil, Bool.or_false]]
    rw [hnotin]
    rfl

/-- Witness for the amended C7 at concrete inputs. -/
theorem private_topic_auth_check_witness :
    wsInitEvents false ["position"] none = [InitEvent.raisedPermissionError]
    ∧ fSubscribe c7S0 "position".toList 5 []
        = some { c7S0 with
            frames := c7S0.frames ++ [["position".toList]],
            callback_directory := setKey c7S0.callback_directory "position".toList 5 } :=
  ⟨(private_topic_auth_check.1 ["position"] (by decide)).1,
   private_topic_auth_check.2 c7S0 "position".toList 5 [] (by decide) (by decide)⟩

/-- C8 counterexample: on a spot connection a failed subscription ack is
fatal, not a registry removal — the handler raises
`Exception('Spot subscription failed.')` (`none`) and the registration is
not removed, contradicting the claim for the spot dispatch path. -/
theorem spot_subscription_failure_fatal_counterexample :
    sHandleIncoming spotFailState spotFailMsg = none
    ∧ spotFailState.callback_directory = [("k".toList, 7)] := by decide

/-- C8 amended: for the futures manager a failed subscription ack removes
exactly that topic's registration (all other keys, the sent frames and
the auth flag are untouched), surfaces `ret_msg` on the log channel and
is non-fatal; the spot manager instead raises an exception from the
dispatch path and removes nothing. -/
theorem sub_failure_handling :
    (∀ (s : FWSState) (m : FMsg) (a key : List Char),
      m.reqOp = some "subscribe" → m.success = some false →
      m.reqArgs.head? = some a → extractTopic a = some key →
      containsKey s.callback_directory key = true →
      fHandleIncoming s m
        = some ({ s with callback_directory :=
              s.callback_directory.filter (fun kv => !(kv.1 == key)) },
            some m.ret_msg)
      ∧ lookupKey (s.callback_directory.filter (fun kv => !(kv.1 == key))) key = none
      ∧ ∀ k' : List Char, k' ≠ key →
          lookupKey (s.callback_directory.filter (fun kv => !(kv.1 == key))) k'
            = lookupKey s.callback_directory k')
    ∧ (∀ (s : SpotState) (m : SpotMsg),
      spotIsPing m = false → spotIsAuth m = false → spotIsSub m = true →
      m.success ≠ some true → m.code ≠ some "0" →
      sHandleIncoming s m = none) := by
  constructor
  · intro s m a key hop hsucc hhead hext hin
    refine ⟨?_, lookupKey_filterOut_self s.callback_directory key,
      fun k' hk' => lookupKey_filterOut_other s.callback_directory key k' hk'⟩
    rw [fHandleIncoming, if_neg (by rw [hop]; decide), if_pos hop,
      if_neg (by rw [hsucc]; decide), if_pos hsucc, hhead]
    dsimp only
    rw [hext]
    dsimp only
    rw [popKey, if_pos hin, Option.map_some']
  · intro s m hping hauth hsub hsucc hcode
    rw [sHandleIncoming, if_neg (by rw [hping]; decide),
      if_neg (by rw [hauth]; decide), if_pos hsub,
      if_neg (fun hc : m.success = some true => hsucc hc), if_pos hcode]

/-- Witness for the amended C8 at concrete states and messages. -/
theorem sub_failure_handling_witness :
    fHandleIncoming c8FutState c8FailMsg
      = some ({ c8FutState with
            callback_directory := c8FutState.callback_directory.filter
              (fun kv => !(kv.1 == "instrument_info.100ms".toList)) },
          some c8FailMsg.ret_msg)
    ∧ sHandleIncoming spotFailState spotFailMsg = none :=
  ⟨(sub_failure_handling.1 c8FutState c8FailMsg
      "instrument_info.100ms.BTCUSD".toList "instrument_info.100ms".toList
      (by decide) (by decide) (by decide) (by decide) (by decide)).1,
   sub_failure_handling.2 spotFailState spotFailMsg
      (by decide) (by decide) (by decide) (by decide) (by decide)⟩

/-- C9 counterexample: a transport error delivered after an explicit
`exit()` DOES trigger reset-and-reconnect whenever `restart_on_error` is
enabled — the reconnect block of `_on_error` sits outside the
`if not self.exited` guard, contradicting the claimed suppression. -/
theorem reconnect_after_exit_counterexample :
    c9Exited.exited = true
    ∧ c9Exited.handle_error = true
    ∧ (onErrorModel c9Exited).2 = true
    ∧ onErrorModel c9Exited = (⟨false, false, true, true, []⟩, true) := by decide

/-- C9 amended: in `_on_error`, the `exited` flag suppresses only the
log-and-close step; reset-and-reconnect is governed solely by
`restart_on_error` (`handle_error`) and also runs after an explicit exit.
When it runs it clears the cached data, the exited and auth flags, and
reopens the socket; with the policy off an error on an exited connection
changes nothing. -/
theorem onerror_reconnect_policy (s : ConnState) :
    ((onErrorModel s).2 = s.handle_error)
    ∧ (s.handle_error = true →
        (onErrorModel s).1.exited = false ∧ (onErrorModel s).1.auth = false
        ∧ (onErrorModel s).1.data = [] ∧ (onErrorModel s).1.sockOpen = true)
    ∧ (s.handle_error = false ∧ s.exited = true → onErrorModel s = (s, false)) := by
  obtain ⟨ex, au, he, so, da⟩ := s
  cases ex <;> cases he <;>
    simp [onErrorModel, wsExitModel, wsResetModel]

/-- Witness for the amended C9 at the explicitly exited state. -/
theorem onerror_reconnect_policy_witness :
    (onErrorModel c9Exited).2 = c9Exited.handle_error
    ∧ ((onErrorModel c9Exited).1.exited = false
        ∧ (onErrorModel c9Exited).1.auth = false
        ∧ (onErrorModel c9Exited).1.data = []
        ∧ (onErrorModel c9Exited).1.sockOpen = true) :=
  ⟨(onerror_reconnect_policy c9Exited).1,
   (onerror_reconnect_policy c9Exited).2.1 (by decide)⟩

/-- C10: in the futures manager the registry is keyed by the
symbol-stripped `_extract_topic` output while the duplicate check
inspects symbol-formatted strings, so for a family template
`fam ++ ".\x7b\x7d"` and two distinct symbols the second subscribe does
not raise, silently replaces the first callback, sends both frames, and
afterwards `_get_callback` returns the latest callback for every
symbol-qualified topic string of the family. -/
theorem futures_symbol_topics_share_one_callback
    (fam sym1 sym2 : List Char) (cb1 cb2 : Nat) (apiKey : Option String)
    (fr : List (List (List Char))) (au : Bool)
    (hfam : '\x7b' ∉ fam) (h1 : '.' ∉ sym1) (h2 : '.' ∉ sym2)
    (hne : sym1 ≠ sym2) :
    ∃ s1 s2 : FWSState,
      fSubscribe ⟨apiKey, [], fr, au⟩
          (fam ++ '.' :: '\x7b' :: '\x7d' :: []) cb1 [sym1] = some s1
      ∧ fSubscribe s1 (fam ++ '.' :: '\x7b' :: '\x7d' :: []) cb2 [sym2] = some s2
      ∧ s1.callback_directory = [(fam, cb1)]
      ∧ s2.callback_directory = [(fam, cb2)]
      ∧ s2.frames = (fr ++ [[fam ++ '.' :: sym1]]) ++ [[fam ++ '.' :: sym2]]
      ∧ (∀ sym : List Char, '.' ∉ sym →
          fGetCallback s2 (fam ++ '.' :: sym) = some cb2) := by
  have hTpriv : fam ++ '.' :: '\x7b' :: '\x7d' :: [] ∉ privateTopics :=
    fun hmem => privateTopics_no_dot _ hmem (by simp)
  have hbr : ('.' : Char) ∉ ('\x7b' :: '\x7d' :: []) := by decide
  have hext : extractTopic (fam ++ '.' :: '\x7b' :: '\x7d' :: []) = some fam :=
    extractTopic_strips_symbol fam _ hbr
  have hargs : ∀ sym : List Char,
      prepareArgs (fam ++ '.' :: '\x7b' :: '\x7d' :: []) [sym]
        = [fam ++ '.' :: sym] := by
    intro sym
    rw [prepareArgs, if_neg hTpriv, if_neg (by simp),
      List.map_cons, List.map_nil, pyFormat_template sym fam hfam]
  have hnoteq : ∀ sym : List Char, (fam == fam ++ '.' :: sym) = false := by
    intro sym
    simp only [beq_eq_false_iff_ne, ne_eq]
    intro hc
    have := congrArg List.length hc
    simp at this
  refine ⟨⟨apiKey, [(fam, cb1)], fr ++ [[fam ++ '.' :: sym1]], au⟩,
    ⟨apiKey, [(fam, cb2)], (fr ++ [[fam ++ '.' :: sym1]]) ++ [[fam ++ '.' :: sym2]], au⟩,
    ?_, ?_, rfl, rfl, rfl, ?_⟩
  · rw [fSubscribe, hargs sym1, hext]
    rw [show (([fam ++ '.' :: sym1].any (fun t => containsKey [] t)) = false)
      from rfl]
    dsimp only
    rw [if_neg (by simp)]
    rfl
  · rw [fSubscribe, hargs sym2, hext]
    have hchk : ([fam ++ '.' :: sym2].any
        (fun t => containsKey [(fam, cb1)] t)) = false := by
      rw [List.any_cons, List.any_nil, Bool.or_false, containsKey,
        List.any_cons, List.any_nil, Bool.or_false]
      exact hnoteq sym2
    rw [hchk]
    dsimp only
    rw [if_neg (by simp)]
    have hset : setKey [(fam, cb1)] fam cb2 = [(fam, cb2)] := by
      rw [setKey, if_pos (by rw [containsKey, List.any_cons]; simp)]
      rw [List.map_cons, List.map_nil, if_pos (by simp)]
    rw [hset]
  · intro sym hsym
    rw [fGetCallback, extractTopic_strips_symbol fam sym hsym, Option.some_bind]
    rw [lookupKey, List.find?_cons_of_pos _ (by simp), Option.map_some']

/-- Witness for C10 at a concrete family and symbols. -/
theorem futures_symbol_topics_share_one_callback_witness :
    ∃ s1 s2 : FWSState,
      fSubscribe ⟨none, [], [], false⟩
          ("instrument_info.100ms".toList ++ '.' :: '\x7b' :: '\x7d' :: []) 1
          ["BTCUSD".toList] = some s1
      ∧ fSubscribe s1 ("instrument_info.100ms".toList ++ '.' :: '\x7b' :: '\x7d' :: [])
          2 ["ETHUSD".toList] = some s2
      ∧ s1.callback_directory = [("instrument_info.100ms".toList, 1)]
      ∧ s2.callback_directory = [("instrument_info.100ms".toList, 2)]
      ∧ s2.frames = (([] : List (List (List Char)))
          ++ [["instrument_info.100ms".toList ++ '.' :: "BTCUSD".toList]])
          ++ [["instrument_info.100ms".toList ++ '.' :: "ETHUSD".toList]]
      ∧ (∀ sym : List Char, '.' ∉ sym →
          fGetCallback s2 ("instrument_info.100ms".toList ++ '.' :: sym) = some 2) :=
  futures_symbol_topics_share_one_callback "instrument_info.100ms".toList
    "BTCUSD".toList "ETHUSD".toList 1 2 none [] false
    (by decide) (by decide) (by decide) (by decide)

end Pybit
